import Mathlib

/-!
Shallow embedding of `src/pa3.c`, a two-level paged virtual-memory simulator
with a TLB and copy-on-write forking, together with proofs about its
operations (`lookup_tlb`, `insert_tlb`, `alloc_page`, `free_page`,
`handle_page_fault`, `switch_process`).

Modelling conventions:
* C arrays indexed by machine integers become Lean functions `Nat → _`;
  the configuration constants (`NR_PAGEFRAMES`, `NR_PDES_PER_PAGE`,
  `NR_PTES_PER_PAGE`, `NR_TLB_ENTRIES`) come from the framework header
  `vm.h`, which is not part of the repository, so they are kept abstract
  in a `Cfg` record.
* `unsigned int` values are modelled as `Nat`; the only place the code
  relies on wrap-around is the `(unsigned)-1` out-of-memory sentinel of
  `alloc_page`, modelled as `Option Nat` (`none` for `(unsigned)-1`),
  and the unchecked use of that sentinel in the COW path of
  `handle_page_fault`, where the C value `(unsigned)-1` is written
  explicitly as `2 ^ 32 - 1`.
* the global mutable state (`current`, `processes`, `mapcounts`, `tlb`,
  `ptbr`) is bundled into a `SimState` record that every operation takes
  and returns.
-/

namespace VMSim

/-- Access-mode bit for reads. Modelled from the spec: `vm.h` is not in
the repository; the spec fixes a two-bit mask (a READ bit and a WRITE
bit, permission checks being bitwise tests), and the source uses the
literal `3` for READ|WRITE, so `ACCESS_READ = 1` and `ACCESS_WRITE = 2`. -/
def ACCESS_READ : Nat := 1

/-- Access-mode bit for writes (see `ACCESS_READ`). -/
def ACCESS_WRITE : Nat := 2

/-- Configuration constants from `vm.h` (not part of the repository);
kept abstract. -/
structure Cfg where
  NR_PAGEFRAMES : Nat
  NR_PDES_PER_PAGE : Nat
  NR_PTES_PER_PAGE : Nat
  NR_TLB_ENTRIES : Nat

/-- A page-table entry: `struct pte` of `vm.h` as used by `pa3.c`.
The C field `private` is a Lean keyword and is rendered `priv`. -/
structure PTE where
  valid : Bool
  rw : Nat
  priv : Nat
  pfn : Nat
deriving DecidableEq

/-- A page-table page: `struct pte_directory`, an array of
`NR_PTES_PER_PAGE` PTEs, modelled as a total function. -/
structure PTEDirectory where
  ptes : Nat → PTE

/-- A two-level page table: `struct pagetable`; `pdes[i] == NULL`
is modelled as `none`. -/
structure Pagetable where
  pdes : Nat → Option PTEDirectory

/-- A process: pid plus its page table (its list linkage is modelled by
membership in `SimState.processes`). -/
structure Process where
  pid : Nat
  pagetable : Pagetable

/-- A TLB entry: `struct tlb_entry` (the source also stores and clears a
`private` field on it, rendered `priv`). -/
structure TLBEntry where
  valid : Bool
  vpn : Nat
  pfn : Nat
  rw : Nat
  priv : Nat
deriving DecidableEq

/-- The global mutable state of `pa3.c`: the running process, the ready
queue (head = front, `list_add_tail` appends at the back), the per-frame
mapping counters, the TLB array, and the page-table base register.
`ptbr` in C is a pointer; we store the page-table value assigned to it,
which the claims only inspect immediately after `switch_process`. -/
structure SimState where
  current : Process
  processes : List Process
  mapcounts : Nat → Nat
  tlb : Nat → TLBEntry
  ptbr : Pagetable

/-- Generic model of the C pattern
`for (k = i; k < i + fuel; k++) if (p(k)) break;`:
returns the first index at which `p` holds, scanning `fuel` indices
starting at `i`. -/
def scan (p : Nat → Bool) (i fuel : Nat) : Option Nat :=
  match fuel with
  | 0 => none
  | fuel + 1 => if p i then some i else scan p (i + 1) fuel

/-- `lookup_tlb(vpn, rw, &pfn)` from `pa3.c`: scans the whole TLB and
succeeds at the first entry whose `vpn` matches and whose `rw` has a
nonzero bitwise AND with the requested `rw` (the C condition
`tlb[i].vpn == vpn && tlb[i].rw & rw`; the `valid` flag is not
consulted). `some pfn` models `return true` with `*pfn` set;
`none` models `return false`. -/
def lookup_tlb (cfg : Cfg) (t : Nat → TLBEntry) (vpn rw : Nat) : Option Nat :=
  match scan (fun i => (t i).vpn == vpn && (t i).rw &&& rw != 0) 0 cfg.NR_TLB_ENTRIES with
  | some i => some ((t i).pfn)
  | none => none

/-- `insert_tlb(vpn, rw, pfn)` from `pa3.c`: the loop stops at the first
index that is either invalid (the `break` arm, which records `idx`) or
whose `vpn` matches (the update arm). If the stop was at an invalid
slot the entry is written there; if it was at a matching `vpn` the
entry is updated in place; if the loop runs out, nothing changes. -/
def insert_tlb (cfg : Cfg) (t : Nat → TLBEntry) (vpn rw pfn : Nat) : Nat → TLBEntry :=
  match scan (fun i => !(t i).valid || (t i).vpn == vpn) 0 cfg.NR_TLB_ENTRIES with
  | none => t
  | some i =>
    if (t i).valid then
      fun j => if j = i then { t j with valid := true, rw := rw, pfn := pfn } else t j
    else
      fun j => if j = i then { valid := true, vpn := vpn, pfn := pfn, rw := rw, priv := (t j).priv } else t j

/-- A zeroed PTE (`memset(pd, 0, ...)` in the source; also the value an
absent mapping reads as). -/
def zeroPTE : PTE := { valid := false, rw := 0, priv := 0, pfn := 0 }

/-- A zeroed page-table page. `handle_page_fault` creates directory
pages with `memset 0`; `alloc_page` creates them with a bare `malloc`
(the C contents are then indeterminate; every defined execution only
reads such a page after initialising the touched entry, and we model
the fresh page as zeroed). -/
def zeroPD : PTEDirectory := ⟨fun _ => zeroPTE⟩

/-- A zeroed TLB entry. -/
def zeroTLBE : TLBEntry := { valid := false, vpn := 0, pfn := 0, rw := 0, priv := 0 }

/-- Write entry `e` of a page-table page. -/
def updPD (pd : PTEDirectory) (e : Nat) (x : PTE) : PTEDirectory :=
  ⟨fun j => if j = e then x else pd.ptes j⟩

/-- Write slot `d` of a page-table directory. -/
def updPT (pt : Pagetable) (d : Nat) (pd : PTEDirectory) : Pagetable :=
  ⟨fun i => if i = d then some pd else pt.pdes i⟩

/-- The directory index of `vpn`: `vpn / NR_PTES_PER_PAGE`. -/
def dirIdx (cfg : Cfg) (vpn : Nat) : Nat := vpn / cfg.NR_PTES_PER_PAGE

/-- The entry index of `vpn`:
`vpn - page_dir_idx * NR_PTES_PER_PAGE`, exactly as the source computes it. -/
def entryIdx (cfg : Cfg) (vpn : Nat) : Nat := vpn - dirIdx cfg vpn * cfg.NR_PTES_PER_PAGE

/-- The PTE the current process's table holds for `vpn` (a missing
directory page reads as the zero PTE, which is invalid). -/
def pteAt (cfg : Cfg) (pt : Pagetable) (vpn : Nat) : PTE :=
  match pt.pdes (dirIdx cfg vpn) with
  | none => zeroPTE
  | some pd => pd.ptes (entryIdx cfg vpn)

/-- `alloc_page(vpn, rw)` from `pa3.c`: finds the smallest pfn with
`mapcounts[pfn] == 0`, sets its mapcount to 1, lazily creates the
directory page for `vpn` if absent, and sets the PTE to
`valid, rw, pfn` (the `private` field is left as it was). Returns
`none` for the C sentinel `(unsigned)-1` (out of memory), in which
case the state is unchanged. -/
def alloc_page (cfg : Cfg) (s : SimState) (vpn rw : Nat) : Option Nat × SimState :=
  match scan (fun f => s.mapcounts f == 0) 0 cfg.NR_PAGEFRAMES with
  | none => (none, s)
  | some pfn =>
    let d := dirIdx cfg vpn
    let e := entryIdx cfg vpn
    let pd := (s.current.pagetable.pdes d).getD zeroPD
    let pd' := updPD pd e { pd.ptes e with valid := true, rw := rw, pfn := pfn }
    (some pfn,
      { s with
        mapcounts := fun f => if f = pfn then 1 else s.mapcounts f,
        current := { s.current with pagetable := updPT s.current.pagetable d pd' } })

/-- `free_page(vpn)` from `pa3.c`: if the directory page exists and the
PTE is valid, decrement the frame's mapcount, invalidate every valid
TLB entry caching that pfn (clearing its `valid`, `rw`, `pfn` but not
its `vpn` or `private`), and zero the PTE's `valid`, `rw`, `pfn`
(leaving `private` as it was). Otherwise nothing changes. -/
def free_page (cfg : Cfg) (s : SimState) (vpn : Nat) : SimState :=
  let d := dirIdx cfg vpn
  let e := entryIdx cfg vpn
  match s.current.pagetable.pdes d with
  | none => s
  | some pd =>
    let pte := pd.ptes e
    if pte.valid then
      let pt' := updPT s.current.pagetable d (updPD pd e { pte with valid := false, rw := 0, pfn := 0 })
      { s with
        mapcounts := fun f => if f = pte.pfn then s.mapcounts f - 1 else s.mapcounts f,
        tlb := fun i =>
          if (s.tlb i).valid ∧ (s.tlb i).pfn = pte.pfn then
            { s.tlb i with valid := false, rw := 0, pfn := 0 }
          else s.tlb i,
        current := { s.current with pagetable := pt' } }
    else s

/-- `handle_page_fault(vpn, rw)` from `pa3.c`. Creates the directory
page (zeroed) if absent; on an invalid PTE performs a first-touch
allocation (failing iff `alloc_page` fails); on a valid PTE whose `rw`
differs from the request and where the request includes the write bit,
either resolves a COW fault (when the PTE's `rw` has the read bit and
its `private` has the write bit) or fails. In the COW case with a
shared frame (`mapcounts > 1`) it calls `alloc_page(vpn, 3)` — whose
result is used unchecked, `(unsigned)-1 = 2^32 - 1` on failure — then
decrements the old frame's count and points the PTE (rewritten by
`alloc_page`) at the new pfn with the write bit or-ed in; with an
unshared frame it just or-s the write bit into the PTE's `rw`. -/
def handle_page_fault (cfg : Cfg) (s : SimState) (vpn rw : Nat) : Bool × SimState :=
  let d := dirIdx cfg vpn
  let e := entryIdx cfg vpn
  let s1 :=
    match s.current.pagetable.pdes d with
    | none => { s with current := { s.current with pagetable := updPT s.current.pagetable d zeroPD } }
    | some _ => s
  let pd := (s1.current.pagetable.pdes d).getD zeroPD
  let pte := pd.ptes e
  if pte.valid = false then
    match alloc_page cfg s1 vpn rw with
    | (none, s2) => (false, s2)
    | (some _, s2) => (true, s2)
  else if pte.rw ≠ rw ∧ rw &&& ACCESS_WRITE ≠ 0 then
    if pte.rw &&& ACCESS_READ ≠ 0 ∧ pte.priv &&& ACCESS_WRITE ≠ 0 then
      if s1.mapcounts pte.pfn > 1 then
        let old_pfn := pte.pfn
        let res := alloc_page cfg s1 vpn 3
        let new_pfn := res.1.getD (2 ^ 32 - 1)
        let s2 := res.2
        let s3 := { s2 with mapcounts := fun f => if f = old_pfn then s2.mapcounts f - 1 else s2.mapcounts f }
        let pd3 := (s3.current.pagetable.pdes d).getD zeroPD
        let pte3 := pd3.ptes e
        let pt4 := updPT s3.current.pagetable d (updPD pd3 e { pte3 with rw := pte3.rw ||| ACCESS_WRITE, pfn := new_pfn })
        (true, { s3 with current := { s3.current with pagetable := pt4 } })
      else
        let pt2 := updPT s1.current.pagetable d (updPD pd e { pte with rw := pte.rw ||| ACCESS_WRITE })
        (true, { s1 with current := { s1.current with pagetable := pt2 } })
    else (false, s1)
  else (true, s1)

/-- `list_for_each_entry` + `list_del_init` over the ready queue:
returns the first element satisfying `p` together with the list with
that element removed, or `none` when no element matches. -/
def removeFirst (p : Process → Bool) : List Process → Option (Process × List Process)
  | [] => none
  | x :: xs =>
    if p x then some (x, xs)
    else
      match removeFirst p xs with
      | none => none
      | some (y, ys) => some (y, x :: ys)

/-- The per-entry COW transformation `switch_process` applies to each
valid PTE of the parent (and mirrors into the child): snapshot `rw`
into `private` when `private` was 0, then force `rw` to `ACCESS_READ`.
Invalid entries are untouched (the child receives them verbatim). -/
def cowPTE (pte : PTE) : PTE :=
  if pte.valid then
    { pte with priv := if pte.priv = 0 then pte.rw else pte.priv, rw := ACCESS_READ }
  else pte

/-- The parent's page-table page after the fork loop: entries with
index `< NR_PTES_PER_PAGE` go through `cowPTE`; the rest are never
touched by the loop. -/
def forkParentPD (cfg : Cfg) (pd : PTEDirectory) : PTEDirectory :=
  ⟨fun j => if j < cfg.NR_PTES_PER_PAGE then cowPTE (pd.ptes j) else pd.ptes j⟩

/-- The child's copy of one of the parent's page-table pages: entries
with index `< NR_PTES_PER_PAGE` are the COW-transformed parent entries;
the rest read as zero (`memset`). -/
def forkChildPD (cfg : Cfg) (pd : PTEDirectory) : PTEDirectory :=
  ⟨fun j => if j < cfg.NR_PTES_PER_PAGE then cowPTE (pd.ptes j) else zeroPTE⟩

/-- The parent's page table after the fork loop. -/
def forkParentPT (cfg : Cfg) (pt : Pagetable) : Pagetable :=
  ⟨fun i => if i < cfg.NR_PDES_PER_PAGE then Option.map (forkParentPD cfg) (pt.pdes i) else pt.pdes i⟩

/-- The child's page table: a freshly allocated directory page wherever
the parent has one (indices `< NR_PDES_PER_PAGE`), `NULL` elsewhere. -/
def forkChildPT (cfg : Cfg) (pt : Pagetable) : Pagetable :=
  ⟨fun i => if i < cfg.NR_PDES_PER_PAGE then Option.map (forkChildPD cfg) (pt.pdes i) else none⟩

/-- The `mapcounts[...]++` part of the fork loop over one page-table
page: one increment per valid entry, at that entry's pfn. -/
def bumpPD (cfg : Cfg) (pd : PTEDirectory) (m : Nat → Nat) : Nat → Nat :=
  (List.range cfg.NR_PTES_PER_PAGE).foldl
    (fun acc j =>
      if (pd.ptes j).valid then
        fun f => if f = (pd.ptes j).pfn then acc f + 1 else acc f
      else acc) m

/-- The `mapcounts[...]++` part of the fork loop over the whole table. -/
def bumpPT (cfg : Cfg) (pt : Pagetable) (m : Nat → Nat) : Nat → Nat :=
  (List.range cfg.NR_PDES_PER_PAGE).foldl
    (fun acc i =>
      match pt.pdes i with
      | none => acc
      | some pd => bumpPD cfg pd acc) m

/-- The TLB-clearing loop at the end of `switch_process`: it walks the
TLB from index 0 but `break`s at the first entry whose `valid` is
already false, so only the maximal valid prefix is cleared. -/
def flushTLB (cfg : Cfg) (t : Nat → TLBEntry) : Nat → TLBEntry :=
  let k := (scan (fun i => !(t i).valid) 0 cfg.NR_TLB_ENTRIES).getD cfg.NR_TLB_ENTRIES
  fun i => if i < k then zeroTLBE else t i

/-- `switch_process(pid)` from `pa3.c`: search the ready queue for
`pid` (the running process is never compared); on a hit, unlink that
process and make it current; on a miss, fork a child of the current
process (COW-sharing every valid PTE and bumping the shared frames'
mapcounts) and make the child current. In both cases run the
TLB-clearing loop, append the old current process at the tail of the
ready queue, and point `ptbr` at the new current's page table. -/
def switch_process (cfg : Cfg) (s : SimState) (pid : Nat) : SimState :=
  match removeFirst (fun p => p.pid == pid) s.processes with
  | some (next, rest) =>
    { current := next,
      processes := rest ++ [s.current],
      mapcounts := s.mapcounts,
      tlb := flushTLB cfg s.tlb,
      ptbr := next.pagetable }
  | none =>
    let child : Process := ⟨pid, forkChildPT cfg s.current.pagetable⟩
    let parent : Process := { s.current with pagetable := forkParentPT cfg s.current.pagetable }
    { current := child,
      processes := s.processes ++ [parent],
      mapcounts := bumpPT cfg s.current.pagetable s.mapcounts,
      tlb := flushTLB cfg s.tlb,
      ptbr := child.pagetable }

/-- The contribution of one PTE to the mapping count of frame `f`:
1 when the entry is valid and maps `f`, else 0. -/
def contribPTE (pte : PTE) (f : Nat) : Nat :=
  if pte.valid = true ∧ pte.pfn = f then 1 else 0

/-- The number of valid entries of one page-table page mapping frame `f`. -/
def countPD (cfg : Cfg) (pd : PTEDirectory) (f : Nat) : Nat :=
  ((List.range cfg.NR_PTES_PER_PAGE).map (fun j => contribPTE (pd.ptes j) f)).sum

/-- The count contributed by one (possibly absent) directory slot. -/
def pdContrib (cfg : Cfg) (o : Option PTEDirectory) (f : Nat) : Nat :=
  match o with
  | none => 0
  | some pd => countPD cfg pd f

/-- The number of valid PTEs of one page table mapping frame `f`. -/
def countPT (cfg : Cfg) (pt : Pagetable) (f : Nat) : Nat :=
  ((List.range cfg.NR_PDES_PER_PAGE).map (fun i => pdContrib cfg (pt.pdes i) f)).sum

/-- The number of valid PTEs across all live processes (current plus
ready queue) mapping frame `f`. -/
def totalCount (cfg : Cfg) (s : SimState) (f : Nat) : Nat :=
  countPT cfg s.current.pagetable f + (s.processes.map (fun p => countPT cfg p.pagetable f)).sum

/-- An empty page table (all directory slots `NULL`). -/
def emptyPT : Pagetable := ⟨fun _ => none⟩

/-- Modelled from the spec: the simulation start state set up by the
external framework (not part of the repository) — one initial process
with an empty page table, an empty ready queue, all frames free, and
an empty TLB. -/
def initState : SimState :=
  { current := ⟨0, emptyPT⟩,
    processes := [],
    mapcounts := fun _ => 0,
    tlb := fun _ => zeroTLBE,
    ptbr := emptyPT }

/-- A VPN addressable by the two-level table. -/
def vpnInRange (cfg : Cfg) (vpn : Nat) : Prop :=
  vpn < cfg.NR_PDES_PER_PAGE * cfg.NR_PTES_PER_PAGE

/-- "No allocation failure" for a `handle_page_fault` step: whenever
the handler's control flow reaches a call to `alloc_page` (first touch,
or the COW-copy branch), a free frame exists. -/
def faultAllocOK (cfg : Cfg) (s : SimState) (vpn rw : Nat) : Prop :=
  let pte := pteAt cfg s.current.pagetable vpn
  (pte.valid = false ∨
      (pte.rw ≠ rw ∧ rw &&& ACCESS_WRITE ≠ 0 ∧ pte.rw &&& ACCESS_READ ≠ 0 ∧
        pte.priv &&& ACCESS_WRITE ≠ 0 ∧ s.mapcounts pte.pfn > 1)) →
    ∃ f, f < cfg.NR_PAGEFRAMES ∧ s.mapcounts f = 0

/-- One step of the system exactly as claim C1 words it: any of the
four operations, with an in-range VPN and no allocation failure. -/
inductive StepClaimed (cfg : Cfg) : SimState → SimState → Prop where
  | alloc (s : SimState) (vpn rw : Nat) (hv : vpnInRange cfg vpn)
      (hok : (alloc_page cfg s vpn rw).1 ≠ none) :
      StepClaimed cfg s (alloc_page cfg s vpn rw).2
  | free (s : SimState) (vpn : Nat) (hv : vpnInRange cfg vpn) :
      StepClaimed cfg s (free_page cfg s vpn)
  | fault (s : SimState) (vpn rw : Nat) (hv : vpnInRange cfg vpn)
      (hok : faultAllocOK cfg s vpn rw) :
      StepClaimed cfg s (handle_page_fault cfg s vpn rw).2
  | switch (s : SimState) (pid : Nat) :
      StepClaimed cfg s (switch_process cfg s pid)

/-- One step of the system with `alloc_page` additionally restricted to
VPNs whose current PTE is invalid (first-touch allocations, which is
how the rest of the code uses the allocator). -/
inductive StepFresh (cfg : Cfg) : SimState → SimState → Prop where
  | alloc (s : SimState) (vpn rw : Nat) (hv : vpnInRange cfg vpn)
      (hfresh : (pteAt cfg s.current.pagetable vpn).valid = false)
      (hok : (alloc_page cfg s vpn rw).1 ≠ none) :
      StepFresh cfg s (alloc_page cfg s vpn rw).2
  | free (s : SimState) (vpn : Nat) (hv : vpnInRange cfg vpn) :
      StepFresh cfg s (free_page cfg s vpn)
  | fault (s : SimState) (vpn rw : Nat) (hv : vpnInRange cfg vpn)
      (hok : faultAllocOK cfg s vpn rw) :
      StepFresh cfg s (handle_page_fault cfg s vpn rw).2
  | switch (s : SimState) (pid : Nat) :
      StepFresh cfg s (switch_process cfg s pid)

/-- Concrete fixture for witnesses: 2 frames, 1 directory slot,
2 entries per page, 2 TLB entries. -/
def cfgW : Cfg := ⟨2, 1, 2, 2⟩

/-- Fixture: a directory page whose entry 0 is a valid read-only COW
page (`rw = 1`, `private = 3`) mapping frame 0. -/
def pdW : PTEDirectory := ⟨fun j => if j = 0 then ⟨true, 1, 3, 0⟩ else zeroPTE⟩

/-- Fixture: a page table holding `pdW` at slot 0. -/
def ptW : Pagetable := ⟨fun i => if i = 0 then some pdW else none⟩

/-- Fixture: frame 0 shared by the current process and one queued
process (mapcount 2), frame 1 free. -/
def sWshared : SimState :=
  { current := ⟨1, ptW⟩, processes := [⟨2, ptW⟩],
    mapcounts := fun f => if f = 0 then 2 else 0,
    tlb := fun _ => zeroTLBE, ptbr := ptW }

/-- Fixture: frame 0 mapped only by the current process (mapcount 1),
frame 1 free. -/
def sWone : SimState :=
  { current := ⟨1, ptW⟩, processes := [],
    mapcounts := fun f => if f = 0 then 1 else 0,
    tlb := fun _ => zeroTLBE, ptbr := ptW }

theorem scan_eq_none_iff (p : Nat → Bool) :
    ∀ fuel i, scan p i fuel = none ↔ ∀ k, i ≤ k → k < i + fuel → p k = false := by
  intro fuel
  induction fuel with
  | zero =>
    intro i
    constructor
    · intro _ k hik hk
      omega
    · intro _
      rfl
  | succ n ih =>
    intro i
    cases hpi : p i with
    | true =>
      constructor
      · intro h
        rw [scan, hpi] at h
        simp at h
      · intro h
        have hfi := h i (Nat.le_refl i) (by omega)
        rw [hpi] at hfi
        cases hfi
    | false =>
      rw [scan, hpi]
      simp only [Bool.false_eq_true, if_false]
      rw [ih (i + 1)]
      constructor
      · intro h k hik hk
        rcases Nat.eq_or_lt_of_le hik with heq | hlt
        · subst heq
          exact hpi
        · exact h k hlt (by omega)
      · intro h k hik hk
        exact h k (by omega) (by omega)

theorem scan_eq_some (p : Nat → Bool) :
    ∀ fuel i m, scan p i fuel = some m →
      p m = true ∧ i ≤ m ∧ m < i + fuel ∧ ∀ k, i ≤ k → k < m → p k = false := by
  intro fuel
  induction fuel with
  | zero =>
    intro i m h
    simp [scan] at h
  | succ n ih =>
    intro i m h
    rw [scan] at h
    cases hpi : p i with
    | true =>
      rw [hpi] at h
      simp only [if_true] at h
      cases h
      exact ⟨hpi, Nat.le_refl i, by omega, fun k hik hk => by omega⟩
    | false =>
      rw [hpi] at h
      simp only [Bool.false_eq_true, if_false] at h
      obtain ⟨h1, h2, h3, h4⟩ := ih (i + 1) m h
      refine ⟨h1, by omega, by omega, fun k hik hk => ?_⟩
      rcases Nat.eq_or_lt_of_le hik with heq | hlt
      · subst heq
        exact hpi
      · exact h4 k hlt hk


theorem removeFirst_eq_none (p : Process → Bool) :
    ∀ l : List Process, (∀ x ∈ l, p x = false) → removeFirst p l = none := by
  intro l
  induction l with
  | nil => intro _; rfl
  | cons x xs ih =>
    intro h
    have hx := h x (List.mem_cons_self x xs)
    have hxs := ih (fun y hy => h y (List.mem_cons_of_mem x hy))
    simp [removeFirst, hx, hxs]

/-- Claim C9: `free_page(vpn)` on a VPN whose current-process PTE is
invalid, or whose directory page is absent, leaves the entire state
unchanged — no mapcount decremented, no TLB entry invalidated, no PTE
field modified. -/
theorem C9_free_page_invalid_noop (cfg : Cfg) (s : SimState) (vpn : Nat)
    (h : s.current.pagetable.pdes (dirIdx cfg vpn) = none ∨
      ∃ pd, s.current.pagetable.pdes (dirIdx cfg vpn) = some pd ∧
        (pd.ptes (entryIdx cfg vpn)).valid = false) :
    free_page cfg s vpn = s := by
  rcases h with h | ⟨pd, hpd, hv⟩
  · simp [free_page, h]
  · simp [free_page, hpd, hv]

/-- Witness for C9 at a concrete state: freeing VPN 0 in the initial
state (empty page table) changes nothing. -/
theorem C9_free_page_invalid_noop_witness :
    free_page ⟨2, 1, 2, 2⟩ initState 0 = initState :=
  C9_free_page_invalid_noop ⟨2, 1, 2, 2⟩ initState 0 (Or.inl rfl)

/-- Claim C10: `switch_process` searches only the ready queue for the
target pid; calling it with the running process's own pid (absent from
the queue) takes the fork path, so afterwards the new current process
and the old current process (now in the queue) carry the same pid and
the queue has grown by one. -/
theorem C10_switch_self_pid_forks_duplicate (cfg : Cfg) (s : SimState)
    (h : ∀ p ∈ s.processes, p.pid ≠ s.current.pid) :
    (switch_process cfg s s.current.pid).current.pid = s.current.pid ∧
    (switch_process cfg s s.current.pid).processes.length = s.processes.length + 1 ∧
    ∃ q ∈ (switch_process cfg s s.current.pid).processes, q.pid = s.current.pid := by
  have hnone : removeFirst (fun p => p.pid == s.current.pid) s.processes = none := by
    refine removeFirst_eq_none _ _ (fun x hx => ?_)
    have := h x hx
    simp [this]
  refine ⟨by simp [switch_process, hnone], by simp [switch_process, hnone], ?_⟩
  refine ⟨{ s.current with pagetable := forkParentPT cfg s.current.pagetable }, ?_, rfl⟩
  simp [switch_process, hnone]

/-- Witness for C10 at a concrete state: switching to pid 1 when the
current process has pid 1 and the ready queue is empty duplicates
pid 1. -/
theorem C10_switch_self_pid_forks_duplicate_witness :
    (switch_process ⟨2, 1, 2, 2⟩ { initState with current := ⟨1, emptyPT⟩ } 1).current.pid = 1 ∧
    (switch_process ⟨2, 1, 2, 2⟩ { initState with current := ⟨1, emptyPT⟩ } 1).processes.length = 1 ∧
    ∃ q ∈ (switch_process ⟨2, 1, 2, 2⟩ { initState with current := ⟨1, emptyPT⟩ } 1).processes,
      q.pid = 1 :=
  C10_switch_self_pid_forks_duplicate ⟨2, 1, 2, 2⟩ { initState with current := ⟨1, emptyPT⟩ }
    (by intro p hp; cases hp)

/-- Claim C7 (code bug): `insert_tlb`'s scan loop `break`s at the first
invalid slot before it has looked at the remaining entries, so when an
invalid slot precedes the existing entry for `vpn`, the insert writes
the invalid slot and leaves the old entry in place: two valid entries
for the same VPN, and the old entry's pfn is not updated. Concretely,
with entry 0 invalid and entry 1 a valid entry for VPN 5 with pfn 3,
`insert_tlb(5, 3, 9)` produces valid entries for VPN 5 at both slots,
slot 1 still mapping pfn 3. -/
theorem C7_insert_tlb_duplicates :
    let cfg : Cfg := ⟨2, 1, 2, 2⟩
    let t : Nat → TLBEntry := fun i => if i = 1 then ⟨true, 5, 3, 3, 0⟩ else zeroTLBE
    let t' := insert_tlb cfg t 5 3 9
    (t 0).valid = false ∧ (t 1).valid = true ∧ (t 1).vpn = 5 ∧
    (t' 0).valid = true ∧ (t' 0).vpn = 5 ∧ (t' 0).pfn = 9 ∧
    (t' 1).valid = true ∧ (t' 1).vpn = 5 ∧ (t' 1).pfn = 3 := by
  decide

/-- Claim C4 (code bug): the TLB-clearing loop in `switch_process`
`break`s at the first invalid entry, so a valid entry that sits after
an invalid one survives the context switch. Concretely, with entry 0
invalid and entry 1 valid, after `switch_process(2)` entry 1 is still
valid. -/
theorem C4_flush_stops_at_first_invalid :
    let cfg : Cfg := ⟨2, 1, 2, 2⟩
    let s : SimState :=
      { current := ⟨1, emptyPT⟩,
        processes := [],
        mapcounts := fun _ => 0,
        tlb := fun i => if i = 1 then ⟨true, 7, 1, 3, 0⟩ else zeroTLBE,
        ptbr := emptyPT }
    (s.tlb 0).valid = false ∧ (s.tlb 1).valid = true ∧
    ((switch_process cfg s 2).tlb 1).valid = true := by
  decide

theorem lookupPred_true_iff (t : Nat → TLBEntry) (vpn rw i : Nat) :
    ((t i).vpn == vpn && (t i).rw &&& rw != 0) = true ↔
      ((t i).vpn = vpn ∧ (t i).rw &&& rw ≠ 0) := by
  simp [Bool.and_eq_true, beq_iff_eq, bne_iff_ne]

/-- Claim C6 (counterexample): the claim's lookup condition — a *valid*
entry whose cached `rw` contains *all* bits of the access — does not
match the code, which ignores `valid` and only tests that the bitwise
AND is nonzero. With a valid read-only entry for VPN 5, a READ|WRITE
lookup succeeds although no entry's `rw` contains all access bits; and
with an *invalid* entry for VPN 5, a READ lookup also succeeds. -/
theorem C6_counterexample :
    let cfg : Cfg := ⟨2, 1, 2, 2⟩
    let t : Nat → TLBEntry := fun i => if i = 0 then ⟨true, 5, 9, 1, 0⟩ else zeroTLBE
    let t2 : Nat → TLBEntry := fun i => if i = 0 then ⟨false, 5, 9, 3, 0⟩ else zeroTLBE
    (lookup_tlb cfg t 5 3 = some 9 ∧
      ∀ i, i < 2 → ¬((t i).valid = true ∧ (t i).vpn = 5 ∧ (t i).rw &&& 3 = 3)) ∧
    (lookup_tlb cfg t2 5 1 = some 9 ∧
      ∀ i, i < 2 → ¬((t2 i).valid = true ∧ (t2 i).vpn = 5 ∧ (t2 i).rw &&& 1 = 1)) := by
  decide

/-- Claim C6 (amended): `lookup_tlb(vpn, access)` returns a pfn iff
some TLB entry — valid or not — has a matching `vpn` and a cached `rw`
with a nonzero bitwise AND with `access`; the pfn returned is that of
the first such entry. -/
theorem C6_lookup_tlb_condition (cfg : Cfg) (t : Nat → TLBEntry) (vpn rw : Nat) :
    (lookup_tlb cfg t vpn rw = none ↔
      ∀ i, i < cfg.NR_TLB_ENTRIES → ¬((t i).vpn = vpn ∧ (t i).rw &&& rw ≠ 0)) ∧
    ∀ p, lookup_tlb cfg t vpn rw = some p →
      ∃ i, i < cfg.NR_TLB_ENTRIES ∧ (t i).vpn = vpn ∧ (t i).rw &&& rw ≠ 0 ∧
        p = (t i).pfn ∧ ∀ j, j < i → ¬((t j).vpn = vpn ∧ (t j).rw &&& rw ≠ 0) := by
  cases hscan : scan (fun i => (t i).vpn == vpn && (t i).rw &&& rw != 0) 0 cfg.NR_TLB_ENTRIES with
  | none =>
    have hall : ∀ i, i < cfg.NR_TLB_ENTRIES → ¬((t i).vpn = vpn ∧ (t i).rw &&& rw ≠ 0) := by
      intro i hi hcontra
      have hf := (scan_eq_none_iff _ _ _).mp hscan i (Nat.zero_le i) (by omega)
      rw [← lookupPred_true_iff t vpn rw i] at hcontra
      rw [hf] at hcontra
      cases hcontra
    constructor
    · exact ⟨fun _ => hall, fun _ => by simp [lookup_tlb, hscan]⟩
    · intro p hp
      simp [lookup_tlb, hscan] at hp
  | some m =>
    obtain ⟨hm, _, hmlt, hmin⟩ := scan_eq_some _ _ _ _ hscan
    rw [lookupPred_true_iff] at hm
    have hminP : ∀ j, j < m → ¬((t j).vpn = vpn ∧ (t j).rw &&& rw ≠ 0) := by
      intro j hj hcontra
      have hf := hmin j (Nat.zero_le j) hj
      rw [← lookupPred_true_iff t vpn rw j] at hcontra
      rw [hf] at hcontra
      cases hcontra
    constructor
    · constructor
      · intro hnone
        simp [lookup_tlb, hscan] at hnone
      · intro hforall
        exact absurd hm (hforall m (by omega))
    · intro p hp
      have hpfn : (t m).pfn = p := by
        simp [lookup_tlb, hscan] at hp
        exact hp
      exact ⟨m, by omega, hm.1, hm.2, hpfn.symm, hminP⟩

/-- Witness for C6 at a concrete input: on an all-zero TLB, lookup of
VPN 5 with access 3 misses (every entry fails the code's condition). -/
theorem C6_lookup_tlb_condition_witness :
    lookup_tlb ⟨2, 1, 2, 2⟩ (fun _ => zeroTLBE) 5 3 = none :=
  (C6_lookup_tlb_condition ⟨2, 1, 2, 2⟩ (fun _ => zeroTLBE) 5 3).1.mpr (by decide)

/-- Claim C8: when some frame is free (mapcount 0), `alloc_page(vpn, rw)`
returns the smallest such pfn, sets its mapcount to 1 (touching no other
frame), and makes the current process's PTE for `vpn` valid with that
pfn and the requested `rw`, creating the directory page if absent; when
no frame is free it returns the out-of-memory sentinel and leaves the
whole state unchanged. -/
theorem C8_alloc_smallest_free (cfg : Cfg) (s : SimState) (vpn rw : Nat) :
    ((∃ f, f < cfg.NR_PAGEFRAMES ∧ s.mapcounts f = 0) →
      ∃ m, (alloc_page cfg s vpn rw).1 = some m ∧
        m < cfg.NR_PAGEFRAMES ∧ s.mapcounts m = 0 ∧
        (∀ k, k < m → s.mapcounts k ≠ 0) ∧
        (alloc_page cfg s vpn rw).2.mapcounts m = 1 ∧
        (∀ f, f ≠ m → (alloc_page cfg s vpn rw).2.mapcounts f = s.mapcounts f) ∧
        ((alloc_page cfg s vpn rw).2.current.pagetable.pdes (dirIdx cfg vpn)).isSome = true ∧
        (pteAt cfg (alloc_page cfg s vpn rw).2.current.pagetable vpn).valid = true ∧
        (pteAt cfg (alloc_page cfg s vpn rw).2.current.pagetable vpn).rw = rw ∧
        (pteAt cfg (alloc_page cfg s vpn rw).2.current.pagetable vpn).pfn = m ∧
        (alloc_page cfg s vpn rw).2.processes = s.processes ∧
        (alloc_page cfg s vpn rw).2.tlb = s.tlb) ∧
    ((∀ f, f < cfg.NR_PAGEFRAMES → s.mapcounts f ≠ 0) →
      alloc_page cfg s vpn rw = (none, s)) := by
  constructor
  · intro ⟨f0, hf0, hf0z⟩
    cases hscan : scan (fun f => s.mapcounts f == 0) 0 cfg.NR_PAGEFRAMES with
    | none =>
      have := (scan_eq_none_iff _ _ _).mp hscan f0 (Nat.zero_le f0) (by omega)
      rw [show (s.mapcounts f0 == 0) = true by simp [hf0z]] at this
      cases this
    | some m =>
      obtain ⟨hm, _, hmlt, hmin⟩ := scan_eq_some _ _ _ _ hscan
      have hm0 : s.mapcounts m = 0 := by simpa using hm
      have hminN : ∀ k, k < m → s.mapcounts k ≠ 0 := by
        intro k hk hkz
        have := hmin k (Nat.zero_le k) hk
        rw [show (s.mapcounts k == 0) = true by simp [hkz]] at this
        cases this
      refine ⟨m, ?_, by omega, hm0, hminN, ?_, ?_, ?_, ?_, ?_, ?_, ?_, ?_⟩ <;>
        simp [alloc_page, hscan, pteAt, updPT, updPD]
      intro f hf
      simp [hf]
  · intro hnone
    have hscan : scan (fun f => s.mapcounts f == 0) 0 cfg.NR_PAGEFRAMES = none := by
      rw [scan_eq_none_iff]
      intro k hk hklt
      have := hnone k (by omega)
      simp [this]
    simp [alloc_page, hscan]

/-- Witness for C8 at concrete inputs: in the initial state frame 0 is
allocated; with every mapcount nonzero the allocator fails and changes
nothing. -/
theorem C8_alloc_smallest_free_witness :
    (alloc_page ⟨2, 1, 2, 2⟩ initState 0 3).1 = some 0 ∧
    alloc_page ⟨2, 1, 2, 2⟩ { initState with mapcounts := fun _ => 5 } 0 3 =
      (none, { initState with mapcounts := fun _ => 5 }) := by
  have h1 := (C8_alloc_smallest_free ⟨2, 1, 2, 2⟩ initState 0 3).1 ⟨0, by decide, rfl⟩
  have h2 := (C8_alloc_smallest_free ⟨2, 1, 2, 2⟩
    { initState with mapcounts := fun _ => 5 } 0 3).2 (by decide)
  obtain ⟨m, hm, hmlt, hm0, hminN, _⟩ := h1
  have hmeq : m = 0 := by
    by_contra hne
    exact hminN 0 (Nat.pos_of_ne_zero hne) rfl
  exact ⟨hmeq ▸ hm, h2⟩

/-- Claim C2: a write access to a VPN whose current-process PTE is
valid, readable but not writable, with a `private` permission that
includes the write bit, is resolved successfully: when the mapped
frame is shared (mapcount > 1, and a free frame exists for the copy),
a fresh frame with mapcount 1 is taken, the old frame's mapcount drops
by exactly one, the PTE is repointed at the new frame with the write
bit set, and no other process is touched; when the mapcount is exactly
1, only the PTE's `rw` is upgraded in place. -/
theorem C2_cow_write_fault (cfg : Cfg) (s : SimState) (vpn a : Nat)
    (pd : PTEDirectory)
    (hpd : s.current.pagetable.pdes (dirIdx cfg vpn) = some pd)
    (hv : (pd.ptes (entryIdx cfg vpn)).valid = true)
    (hnw : (pd.ptes (entryIdx cfg vpn)).rw &&& ACCESS_WRITE = 0)
    (hr : (pd.ptes (entryIdx cfg vpn)).rw &&& ACCESS_READ ≠ 0)
    (hp : (pd.ptes (entryIdx cfg vpn)).priv &&& ACCESS_WRITE ≠ 0)
    (ha : a &&& ACCESS_WRITE ≠ 0) :
    (handle_page_fault cfg s vpn a).1 = true ∧
    (s.mapcounts (pd.ptes (entryIdx cfg vpn)).pfn > 1 →
      (∃ f, f < cfg.NR_PAGEFRAMES ∧ s.mapcounts f = 0) →
      ∃ m, m < cfg.NR_PAGEFRAMES ∧ s.mapcounts m = 0 ∧
        m ≠ (pd.ptes (entryIdx cfg vpn)).pfn ∧
        (handle_page_fault cfg s vpn a).2.mapcounts m = 1 ∧
        (handle_page_fault cfg s vpn a).2.mapcounts (pd.ptes (entryIdx cfg vpn)).pfn =
          s.mapcounts (pd.ptes (entryIdx cfg vpn)).pfn - 1 ∧
        (∀ f, f ≠ m → f ≠ (pd.ptes (entryIdx cfg vpn)).pfn →
          (handle_page_fault cfg s vpn a).2.mapcounts f = s.mapcounts f) ∧
        (pteAt cfg (handle_page_fault cfg s vpn a).2.current.pagetable vpn).valid = true ∧
        (pteAt cfg (handle_page_fault cfg s vpn a).2.current.pagetable vpn).pfn = m ∧
        (pteAt cfg (handle_page_fault cfg s vpn a).2.current.pagetable vpn).rw &&& ACCESS_WRITE ≠ 0 ∧
        (handle_page_fault cfg s vpn a).2.processes = s.processes) ∧
    (s.mapcounts (pd.ptes (entryIdx cfg vpn)).pfn = 1 →
      (handle_page_fault cfg s vpn a).2.mapcounts = s.mapcounts ∧
      (handle_page_fault cfg s vpn a).2.processes = s.processes ∧
      (handle_page_fault cfg s vpn a).2.tlb = s.tlb ∧
      (pteAt cfg (handle_page_fault cfg s vpn a).2.current.pagetable vpn).valid = true ∧
      (pteAt cfg (handle_page_fault cfg s vpn a).2.current.pagetable vpn).pfn =
        (pd.ptes (entryIdx cfg vpn)).pfn ∧
      (pteAt cfg (handle_page_fault cfg s vpn a).2.current.pagetable vpn).priv =
        (pd.ptes (entryIdx cfg vpn)).priv ∧
      (pteAt cfg (handle_page_fault cfg s vpn a).2.current.pagetable vpn).rw =
        (pd.ptes (entryIdx cfg vpn)).rw ||| ACCESS_WRITE ∧
      (∀ i, i ≠ dirIdx cfg vpn →
        (handle_page_fault cfg s vpn a).2.current.pagetable.pdes i = s.current.pagetable.pdes i) ∧
      (∃ pd', (handle_page_fault cfg s vpn a).2.current.pagetable.pdes (dirIdx cfg vpn) = some pd' ∧
        ∀ j, j ≠ entryIdx cfg vpn → pd'.ptes j = pd.ptes j)) := by
  have hne : (pd.ptes (entryIdx cfg vpn)).rw ≠ a := by
    intro heq
    rw [heq] at hnw
    exact ha hnw
  simp only [handle_page_fault, hpd, Option.getD_some]
  rw [if_neg (by simp [hv]), if_pos ⟨hne, ha⟩, if_pos ⟨hr, hp⟩]
  refine ⟨?_, ?_, ?_⟩
  · split <;> rfl
  · intro hsh hfree
    rw [if_pos hsh]
    obtain ⟨f0, hf0, hf0z⟩ := hfree
    cases hscan : scan (fun f => s.mapcounts f == 0) 0 cfg.NR_PAGEFRAMES with
    | none =>
      have := (scan_eq_none_iff _ _ _).mp hscan f0 (Nat.zero_le f0) (by omega)
      rw [show (s.mapcounts f0 == 0) = true by simp [hf0z]] at this
      cases this
    | some m =>
      obtain ⟨hm, _, hmlt, _⟩ := scan_eq_some _ _ _ _ hscan
      have hm0 : s.mapcounts m = 0 := by simpa using hm
      have hmo : m ≠ (pd.ptes (entryIdx cfg vpn)).pfn := by
        intro heq
        rw [heq] at hm0
        omega
      refine ⟨m, by omega, hm0, hmo, ?_, ?_, ?_, ?_, ?_, ?_, ?_⟩ <;>
        simp [alloc_page, hscan, hpd, pteAt, updPT, updPD, hmo, Ne.symm hmo]
      · intro f hfm hfo
        simp [hfm, hfo]
      · simp [ACCESS_WRITE]
  · intro h1
    rw [if_neg (by omega)]
    refine ⟨rfl, rfl, rfl, ?_, ?_, ?_, ?_, ?_, ?_⟩ <;>
      simp [pteAt, updPT, updPD, hv]
    · intro i hi
      simp [hi]
    · intro j hj hj'
      exact absurd hj' hj

/-- Witness for C2 at a concrete state: with a valid read-only PTE
(`rw = 1`, `private = 3`) for VPN 0 mapping frame 0, a READ|WRITE
fault succeeds when the frame is shared (mapcount 2), and with
mapcount 1 it succeeds leaving every mapcount unchanged. -/
theorem C2_cow_write_fault_witness :
    (handle_page_fault cfgW sWshared 0 3).1 = true ∧
    (handle_page_fault cfgW sWone 0 3).1 = true ∧
    (handle_page_fault cfgW sWone 0 3).2.mapcounts = sWone.mapcounts := by
  refine ⟨?_, ?_, ?_⟩
  · exact (C2_cow_write_fault cfgW sWshared 0 3 pdW rfl rfl (by decide) (by decide) (by decide)
      (by decide)).1
  · exact (C2_cow_write_fault cfgW sWone 0 3 pdW rfl rfl (by decide) (by decide) (by decide)
      (by decide)).1
  · exact ((C2_cow_write_fault cfgW sWone 0 3 pdW rfl rfl (by decide) (by decide) (by decide)
      (by decide)).2.2 (by decide)).1

/-- Claim C5 (counterexample): the claim's failure condition does not
match the code on two points. (i) In the COW-copy path an out-of-memory
allocation is not detected: with every frame in use and a shared
read-only COW page, a write fault returns `true` although the allocator
was invoked and failed. (ii) A write access to a PTE whose `rw`
already *includes* the write bit but differs from the requested mode
and whose `private` lacks the write bit returns `false`, although the
claim calls for failure only when the PTE's `rw` lacks the write bit. -/
theorem C5_counterexample :
    let cfg : Cfg := ⟨2, 1, 2, 2⟩
    let pdA : PTEDirectory := ⟨fun j => if j = 0 then ⟨true, 1, 3, 0⟩ else zeroPTE⟩
    let ptA : Pagetable := ⟨fun i => if i = 0 then some pdA else none⟩
    let sOOM : SimState :=
      { current := ⟨1, ptA⟩, processes := [⟨2, ptA⟩],
        mapcounts := fun f => if f = 0 then 2 else 1,
        tlb := fun _ => zeroTLBE, ptbr := ptA }
    let pdB : PTEDirectory := ⟨fun j => if j = 0 then ⟨true, 3, 0, 0⟩ else zeroPTE⟩
    let ptB : Pagetable := ⟨fun i => if i = 0 then some pdB else none⟩
    let sRW : SimState :=
      { current := ⟨1, ptB⟩, processes := [],
        mapcounts := fun f => if f = 0 then 1 else 0,
        tlb := fun _ => zeroTLBE, ptbr := ptB }
    ((handle_page_fault cfg sOOM 0 3).1 = true ∧
      (∀ f, f < 2 → sOOM.mapcounts f ≠ 0) ∧
      sOOM.mapcounts 0 > 1 ∧
      (pdA.ptes 0).valid = true ∧ (pdA.ptes 0).rw &&& ACCESS_WRITE = 0 ∧
      (pdA.ptes 0).priv &&& ACCESS_WRITE ≠ 0) ∧
    ((handle_page_fault cfg sRW 0 2).1 = false ∧
      (pdB.ptes 0).valid = true ∧ (pdB.ptes 0).rw &&& ACCESS_WRITE ≠ 0) := by
  decide

/-- Claim C5 (amended): `handle_page_fault(vpn, rw)` returns false iff
either (a) the PTE (read after the lazy directory creation) is invalid
and no frame has mapcount 0, or (b) the PTE is valid, its `rw` differs
from the requested mode, the request includes the write bit, and it is
not the case that the PTE's `rw` includes the read bit and its
`private` includes the write bit. In particular an out-of-memory
failure inside the COW-copy branch is not detected (the handler
returns true there). -/
theorem C5_fault_failure_iff (cfg : Cfg) (s : SimState) (vpn rw : Nat) :
    (handle_page_fault cfg s vpn rw).1 = false ↔
      ((pteAt cfg s.current.pagetable vpn).valid = false ∧
        ∀ f, f < cfg.NR_PAGEFRAMES → s.mapcounts f ≠ 0) ∨
      ((pteAt cfg s.current.pagetable vpn).valid = true ∧
        (pteAt cfg s.current.pagetable vpn).rw ≠ rw ∧ rw &&& ACCESS_WRITE ≠ 0 ∧
        ¬((pteAt cfg s.current.pagetable vpn).rw &&& ACCESS_READ ≠ 0 ∧
          (pteAt cfg s.current.pagetable vpn).priv &&& ACCESS_WRITE ≠ 0)) := by
  cases hpd : s.current.pagetable.pdes (dirIdx cfg vpn) with
  | none =>
    have hpte : pteAt cfg s.current.pagetable vpn = zeroPTE := by
      simp [pteAt, hpd]
    simp only [handle_page_fault, hpd, hpte, updPT, Option.getD_some]
    cases hscan : scan (fun f => s.mapcounts f == 0) 0 cfg.NR_PAGEFRAMES with
    | none =>
      have hall : ∀ f, f < cfg.NR_PAGEFRAMES → s.mapcounts f ≠ 0 := by
        intro f hf hfz
        have := (scan_eq_none_iff _ _ _).mp hscan f (Nat.zero_le f) (by omega)
        rw [show (s.mapcounts f == 0) = true by simp [hfz]] at this
        cases this
      simp [alloc_page, hscan, zeroPD, zeroPTE]
      exact hall
    | some m =>
      obtain ⟨hm, _, hmlt, _⟩ := scan_eq_some _ _ _ _ hscan
      have hm0 : s.mapcounts m = 0 := by simpa using hm
      have : ¬∀ f, f < cfg.NR_PAGEFRAMES → s.mapcounts f ≠ 0 := by
        intro hall
        exact hall m (by omega) hm0
      simp [alloc_page, hscan, zeroPD, zeroPTE, this]
  | some pd =>
    have hpte : pteAt cfg s.current.pagetable vpn = pd.ptes (entryIdx cfg vpn) := by
      simp [pteAt, hpd]
    simp only [handle_page_fault, hpd, hpte, Option.getD_some]
    cases hv : (pd.ptes (entryIdx cfg vpn)).valid with
    | false =>
      simp only [hv, if_pos rfl]
      cases hscan : scan (fun f => s.mapcounts f == 0) 0 cfg.NR_PAGEFRAMES with
      | none =>
        have hall : ∀ f, f < cfg.NR_PAGEFRAMES → s.mapcounts f ≠ 0 := by
          intro f hf hfz
          have := (scan_eq_none_iff _ _ _).mp hscan f (Nat.zero_le f) (by omega)
          rw [show (s.mapcounts f == 0) = true by simp [hfz]] at this
          cases this
        simp [alloc_page, hscan]
        exact hall
      | some m =>
        obtain ⟨hm, _, hmlt, _⟩ := scan_eq_some _ _ _ _ hscan
        have hm0 : s.mapcounts m = 0 := by simpa using hm
        have : ¬∀ f, f < cfg.NR_PAGEFRAMES → s.mapcounts f ≠ 0 := by
          intro hall
          exact hall m (by omega) hm0
        simp [alloc_page, hscan, this]
    | true =>
      rw [if_neg (by simp [hv])]
      by_cases hc1 : (pd.ptes (entryIdx cfg vpn)).rw ≠ rw ∧ rw &&& ACCESS_WRITE ≠ 0
      · rw [if_pos hc1]
        by_cases hc2 : (pd.ptes (entryIdx cfg vpn)).rw &&& ACCESS_READ ≠ 0 ∧
            (pd.ptes (entryIdx cfg vpn)).priv &&& ACCESS_WRITE ≠ 0
        · rw [if_pos hc2]
          constructor
          · intro hfalse
            split at hfalse <;> cases hfalse
          · intro h
            rcases h with ⟨h1, _⟩ | ⟨_, _, _, h4⟩
            · exact absurd h1 (by simp)
            · exact absurd hc2 h4
        · rw [if_neg hc2]
          constructor
          · intro _
            exact Or.inr ⟨rfl, hc1.1, hc1.2, hc2⟩
          · intro _
            rfl
      · rw [if_neg hc1]
        constructor
        · intro hfalse
          exact absurd hfalse (by simp)
        · intro h
          rcases h with ⟨h1, _⟩ | ⟨_, h2, h3, _⟩
          · exact absurd h1 (by simp)
          · exact absurd ⟨h2, h3⟩ hc1

/-- Witness for C5 at a concrete input: in the initial state (invalid
PTE, all frames free) a fault on VPN 0 does not fail. -/
theorem C5_fault_failure_iff_witness :
    (handle_page_fault ⟨2, 1, 2, 2⟩ initState 0 3).1 = true := by
  have h := (C5_fault_failure_iff ⟨2, 1, 2, 2⟩ initState 0 3)
  cases hres : (handle_page_fault ⟨2, 1, 2, 2⟩ initState 0 3).1 with
  | false =>
    have := h.mp hres
    rcases this with ⟨_, hall⟩ | ⟨hval, _⟩
    · exact absurd (hall 0 (by decide)) (by decide)
    · exact absurd hval (by decide)
  | true => rfl

theorem foldl_bump_eq (pd : PTEDirectory) :
    ∀ (l : List Nat) (m : Nat → Nat) (f : Nat),
      l.foldl (fun acc j =>
          if (pd.ptes j).valid then
            (fun g => if g = (pd.ptes j).pfn then acc g + 1 else acc g)
          else acc) m f
        = m f + (l.map (fun j => contribPTE (pd.ptes j) f)).sum := by
  intro l
  induction l with
  | nil =>
    intro m f
    simp
  | cons x xs ih =>
    intro m f
    simp only [List.foldl_cons, List.map_cons, List.sum_cons]
    rw [ih]
    cases hval : (pd.ptes x).valid with
    | false =>
      simp [hval, contribPTE]
    | true =>
      by_cases hf : f = (pd.ptes x).pfn
      · simp only [hval, if_true, contribPTE, hf]
        simp
        omega
      · have hf' : ¬((pd.ptes x).pfn = f) := fun h => hf h.symm
        simp only [hval, if_true, contribPTE]
        simp [hf, hf']

theorem bumpPD_apply (cfg : Cfg) (pd : PTEDirectory) (m : Nat → Nat) (f : Nat) :
    bumpPD cfg pd m f = m f + countPD cfg pd f :=
  foldl_bump_eq pd (List.range cfg.NR_PTES_PER_PAGE) m f

theorem foldl_bumpPT_eq (cfg : Cfg) (pt : Pagetable) :
    ∀ (l : List Nat) (m : Nat → Nat) (f : Nat),
      l.foldl (fun acc i =>
          match pt.pdes i with
          | none => acc
          | some pd => bumpPD cfg pd acc) m f
        = m f + (l.map (fun i => pdContrib cfg (pt.pdes i) f)).sum := by
  intro l
  induction l with
  | nil =>
    intro m f
    simp
  | cons x xs ih =>
    intro m f
    simp only [List.foldl_cons, List.map_cons, List.sum_cons]
    rw [ih]
    cases hpd : pt.pdes x with
    | none =>
      simp [pdContrib]
    | some pd =>
      simp only [pdContrib, bumpPD_apply]
      omega

theorem bumpPT_apply (cfg : Cfg) (pt : Pagetable) (m : Nat → Nat) (f : Nat) :
    bumpPT cfg pt m f = m f + countPT cfg pt f :=
  foldl_bumpPT_eq cfg pt (List.range cfg.NR_PDES_PER_PAGE) m f

/-- Claim C3: for a pid absent from the ready queue, `switch_process`
forks: the new current process carries that pid; the old current
process is appended to the queue; every valid parent PTE yields, in
both the parent's and the child's (freshly built, structurally
separate) tables, an entry with the same pfn, `valid = true`,
`rw = ACCESS_READ`, and — when the parent's `private` was 0 — `private`
set to the parent's pre-fork `rw` (otherwise `private` is inherited
unchanged); the child has a directory page exactly where the parent
has one; and each frame's mapcount grows by the number of valid parent
PTEs mapping it (by exactly 1 for a frame mapped by one entry). -/
theorem C3_fork_semantics (cfg : Cfg) (s : SimState) (pid : Nat)
    (hnot : ∀ p ∈ s.processes, p.pid ≠ pid) :
    (switch_process cfg s pid).current.pid = pid ∧
    (∃ q, (switch_process cfg s pid).processes = s.processes ++ [q] ∧ q.pid = s.current.pid ∧
      ∀ i pd, i < cfg.NR_PDES_PER_PAGE → s.current.pagetable.pdes i = some pd →
        ∀ j, j < cfg.NR_PTES_PER_PAGE → (pd.ptes j).valid = true →
        ∃ cd qd,
          (switch_process cfg s pid).current.pagetable.pdes i = some cd ∧
          q.pagetable.pdes i = some qd ∧
          (cd.ptes j).valid = true ∧ (cd.ptes j).pfn = (pd.ptes j).pfn ∧
          (cd.ptes j).rw = ACCESS_READ ∧
          (qd.ptes j).valid = true ∧ (qd.ptes j).pfn = (pd.ptes j).pfn ∧
          (qd.ptes j).rw = ACCESS_READ ∧
          ((pd.ptes j).priv = 0 →
            (cd.ptes j).priv = (pd.ptes j).rw ∧ (qd.ptes j).priv = (pd.ptes j).rw) ∧
          ((pd.ptes j).priv ≠ 0 →
            (cd.ptes j).priv = (pd.ptes j).priv ∧ (qd.ptes j).priv = (pd.ptes j).priv)) ∧
    (∀ i, i < cfg.NR_PDES_PER_PAGE → s.current.pagetable.pdes i = none →
      (switch_process cfg s pid).current.pagetable.pdes i = none) ∧
    (∀ f, (switch_process cfg s pid).mapcounts f =
      s.mapcounts f + countPT cfg s.current.pagetable f) := by
  have hnone : removeFirst (fun p => p.pid == pid) s.processes = none := by
    refine removeFirst_eq_none _ _ (fun x hx => ?_)
    simp [hnot x hx]
  refine ⟨by simp [switch_process, hnone],
    ⟨{ s.current with pagetable := forkParentPT cfg s.current.pagetable },
      by simp [switch_process, hnone], rfl, ?_⟩, ?_, ?_⟩
  · intro i pd hi hpd j hj hvalid
    refine ⟨forkChildPD cfg pd, forkParentPD cfg pd, ?_, ?_, ?_⟩
    · simp [switch_process, hnone, forkChildPT, hi, hpd]
    · simp [forkParentPT, hi, hpd]
    · by_cases hpriv : (pd.ptes j).priv = 0 <;>
        simp [forkChildPD, forkParentPD, hj, cowPTE, hvalid, hpriv]
  · intro i hi hpdnone
    simp [switch_process, hnone, forkChildPT, hi, hpdnone]
  · intro f
    simp only [switch_process, hnone]
    exact bumpPT_apply cfg s.current.pagetable s.mapcounts f

/-- Witness for C3 at a concrete state: forking pid 2 from a process
whose only valid PTE maps frame 0 gives a current process with pid 2
and raises frame 0's mapcount from 1 to 2. -/
theorem C3_fork_semantics_witness :
    (switch_process cfgW sWone 2).current.pid = 2 ∧
    (switch_process cfgW sWone 2).mapcounts 0 =
      sWone.mapcounts 0 + countPT cfgW sWone.current.pagetable 0 ∧
    (switch_process cfgW sWone 2).mapcounts 0 = 2 := by
  have h := C3_fork_semantics cfgW sWone 2 (by intro p hp; cases hp)
  refine ⟨h.1, h.2.2.2 0, ?_⟩
  rw [h.2.2.2 0]
  decide

theorem sum_map_update (F G : Nat → Nat) (i0 : Nat) (h : ∀ i, i ≠ i0 → F i = G i) :
    ∀ l : List Nat, l.Nodup → i0 ∈ l →
      (l.map F).sum + G i0 = (l.map G).sum + F i0 := by
  intro l
  induction l with
  | nil =>
    intro _ hi0
    cases hi0
  | cons x xs ih =>
    intro hnd hi0
    have hnd' := List.nodup_cons.mp hnd
    rcases List.mem_cons.mp hi0 with heq | hmem
    · subst heq
      have hxs : xs.map F = xs.map G := by
        refine List.map_congr_left ?_
        intro y hy
        refine h y ?_
        intro hyx
        subst hyx
        exact hnd'.1 hy
      simp only [List.map_cons, List.sum_cons, hxs]
      omega
    · have hx : F x = G x := by
        refine h x ?_
        intro hxx
        subst hxx
        exact hnd'.1 hmem
      have hih := ih hnd'.2 hmem
      simp only [List.map_cons, List.sum_cons, hx]
      omega

theorem natList_sum_eq_zero : ∀ l : List Nat, (∀ x ∈ l, x = 0) → l.sum = 0 := by
  intro l
  induction l with
  | nil => intro _; rfl
  | cons x xs ih =>
    intro h
    have hx := h x (List.mem_cons_self x xs)
    have hxs := ih (fun y hy => h y (List.mem_cons_of_mem x hy))
    simp [hx, hxs]

theorem contribPTE_invalid {pte : PTE} (h : pte.valid = false) (f : Nat) :
    contribPTE pte f = 0 := by
  simp [contribPTE, h]

theorem contribPTE_cow (pte : PTE) (f : Nat) :
    contribPTE (cowPTE pte) f = contribPTE pte f := by
  unfold cowPTE contribPTE
  cases h : pte.valid <;> simp [h]

theorem countPD_zero (cfg : Cfg) (f : Nat) : countPD cfg zeroPD f = 0 := by
  refine natList_sum_eq_zero _ ?_
  intro x hx
  rw [List.mem_map] at hx
  obtain ⟨j, _, hxj⟩ := hx
  simp [zeroPD, contribPTE, zeroPTE] at hxj
  omega

theorem pdContrib_getD (cfg : Cfg) (o : Option PTEDirectory) (f : Nat) :
    pdContrib cfg o f = countPD cfg (o.getD zeroPD) f := by
  cases o with
  | none => simp [pdContrib, countPD_zero]
  | some pd => rfl

theorem pteAt_eq_getD (cfg : Cfg) (pt : Pagetable) (vpn : Nat) :
    pteAt cfg pt vpn = ((pt.pdes (dirIdx cfg vpn)).getD zeroPD).ptes (entryIdx cfg vpn) := by
  unfold pteAt
  cases pt.pdes (dirIdx cfg vpn) with
  | none => simp [zeroPD]
  | some pd => rfl

theorem countPD_updPD (cfg : Cfg) (pd : PTEDirectory) (e : Nat)
    (he : e < cfg.NR_PTES_PER_PAGE) (x : PTE) (f : Nat) :
    countPD cfg (updPD pd e x) f + contribPTE (pd.ptes e) f
      = countPD cfg pd f + contribPTE x f := by
  have h : ∀ j, j ≠ e → contribPTE ((updPD pd e x).ptes j) f = contribPTE (pd.ptes j) f := by
    intro j hj
    simp [updPD, hj]
  have hmain := sum_map_update (fun j => contribPTE ((updPD pd e x).ptes j) f)
    (fun j => contribPTE (pd.ptes j) f) e h (List.range cfg.NR_PTES_PER_PAGE)
    (List.nodup_range _) (List.mem_range.mpr he)
  simpa [countPD, updPD] using hmain

theorem countPT_updPT (cfg : Cfg) (pt : Pagetable) (d : Nat)
    (hd : d < cfg.NR_PDES_PER_PAGE) (pd' : PTEDirectory) (f : Nat) :
    countPT cfg (updPT pt d pd') f + pdContrib cfg (pt.pdes d) f
      = countPT cfg pt f + countPD cfg pd' f := by
  have h : ∀ i, i ≠ d →
      pdContrib cfg ((updPT pt d pd').pdes i) f = pdContrib cfg (pt.pdes i) f := by
    intro i hi
    simp [updPT, hi]
  have hmain := sum_map_update (fun i => pdContrib cfg ((updPT pt d pd').pdes i) f)
    (fun i => pdContrib cfg (pt.pdes i) f) d h (List.range cfg.NR_PDES_PER_PAGE)
    (List.nodup_range _) (List.mem_range.mpr hd)
  simpa [countPT, updPT, pdContrib] using hmain

theorem npte_pos_of_inRange (cfg : Cfg) (vpn : Nat) (hv : vpnInRange cfg vpn) :
    0 < cfg.NR_PTES_PER_PAGE := by
  rcases Nat.eq_zero_or_pos cfg.NR_PTES_PER_PAGE with h0 | hpos
  · unfold vpnInRange at hv
    rw [h0, Nat.mul_zero] at hv
    omega
  · exact hpos

theorem dirIdx_lt (cfg : Cfg) (vpn : Nat) (hv : vpnInRange cfg vpn) :
    dirIdx cfg vpn < cfg.NR_PDES_PER_PAGE := by
  have hpos := npte_pos_of_inRange cfg vpn hv
  unfold vpnInRange at hv
  unfold dirIdx
  exact (Nat.div_lt_iff_lt_mul hpos).mpr (by omega)

theorem entryIdx_eq_mod (cfg : Cfg) (vpn : Nat) :
    entryIdx cfg vpn = vpn % cfg.NR_PTES_PER_PAGE := by
  unfold entryIdx dirIdx
  have h := Nat.mod_add_div vpn cfg.NR_PTES_PER_PAGE
  have h2 : vpn / cfg.NR_PTES_PER_PAGE * cfg.NR_PTES_PER_PAGE
      = cfg.NR_PTES_PER_PAGE * (vpn / cfg.NR_PTES_PER_PAGE) := Nat.mul_comm _ _
  omega

theorem entryIdx_lt (cfg : Cfg) (vpn : Nat) (hpos : 0 < cfg.NR_PTES_PER_PAGE) :
    entryIdx cfg vpn < cfg.NR_PTES_PER_PAGE := by
  rw [entryIdx_eq_mod]
  exact Nat.mod_lt _ hpos

theorem countPT_set_pte (cfg : Cfg) (pt : Pagetable) (vpn : Nat)
    (hv : vpnInRange cfg vpn) (x : PTE) (f : Nat) :
    countPT cfg (updPT pt (dirIdx cfg vpn)
        (updPD ((pt.pdes (dirIdx cfg vpn)).getD zeroPD) (entryIdx cfg vpn) x)) f
      + contribPTE (pteAt cfg pt vpn) f
      = countPT cfg pt f + contribPTE x f := by
  have hd := dirIdx_lt cfg vpn hv
  have hpos := npte_pos_of_inRange cfg vpn hv
  have he := entryIdx_lt cfg vpn hpos
  have h1 := countPT_updPT cfg pt (dirIdx cfg vpn) hd
    (updPD ((pt.pdes (dirIdx cfg vpn)).getD zeroPD) (entryIdx cfg vpn) x) f
  have h2 := countPD_updPD cfg ((pt.pdes (dirIdx cfg vpn)).getD zeroPD) (entryIdx cfg vpn) he x f
  rw [pdContrib_getD] at h1
  rw [pteAt_eq_getD]
  omega

theorem countPT_set_zeroPD (cfg : Cfg) (pt : Pagetable) (d : Nat)
    (hd : d < cfg.NR_PDES_PER_PAGE) (hnone : pt.pdes d = none) (f : Nat) :
    countPT cfg (updPT pt d zeroPD) f = countPT cfg pt f := by
  have h1 := countPT_updPT cfg pt d hd zeroPD f
  rw [hnone] at h1
  simp only [pdContrib, countPD_zero] at h1
  omega

theorem contrib_pteAt_le_countPT (cfg : Cfg) (pt : Pagetable) (vpn : Nat)
    (hv : vpnInRange cfg vpn) (f : Nat) :
    contribPTE (pteAt cfg pt vpn) f ≤ countPT cfg pt f := by
  have hd := dirIdx_lt cfg vpn hv
  have hpos := npte_pos_of_inRange cfg vpn hv
  have he := entryIdx_lt cfg vpn hpos
  rw [pteAt_eq_getD]
  have h1 : contribPTE (((pt.pdes (dirIdx cfg vpn)).getD zeroPD).ptes (entryIdx cfg vpn)) f
      ≤ countPD cfg ((pt.pdes (dirIdx cfg vpn)).getD zeroPD) f :=
    List.le_sum_of_mem (List.mem_map_of_mem _ (List.mem_range.mpr he))
  have h2 : countPD cfg ((pt.pdes (dirIdx cfg vpn)).getD zeroPD) f ≤ countPT cfg pt f := by
    rw [← pdContrib_getD]
    exact List.le_sum_of_mem (List.mem_map_of_mem _ (List.mem_range.mpr hd))
  omega

theorem countPD_forkParent (cfg : Cfg) (pd : PTEDirectory) (f : Nat) :
    countPD cfg (forkParentPD cfg pd) f = countPD cfg pd f := by
  unfold countPD
  refine congrArg _ (List.map_congr_left ?_)
  intro j hj
  have hjlt := List.mem_range.mp hj
  simp [forkParentPD, hjlt, contribPTE_cow]

theorem countPD_forkChild (cfg : Cfg) (pd : PTEDirectory) (f : Nat) :
    countPD cfg (forkChildPD cfg pd) f = countPD cfg pd f := by
  unfold countPD
  refine congrArg _ (List.map_congr_left ?_)
  intro j hj
  have hjlt := List.mem_range.mp hj
  simp [forkChildPD, hjlt, contribPTE_cow]

theorem countPT_forkParent (cfg : Cfg) (pt : Pagetable) (f : Nat) :
    countPT cfg (forkParentPT cfg pt) f = countPT cfg pt f := by
  unfold countPT
  refine congrArg _ (List.map_congr_left ?_)
  intro i hi
  have hilt := List.mem_range.mp hi
  cases hpd : pt.pdes i with
  | none => simp [forkParentPT, hilt, hpd, pdContrib]
  | some pd => simp [forkParentPT, hilt, hpd, pdContrib, countPD_forkParent]

theorem countPT_forkChild (cfg : Cfg) (pt : Pagetable) (f : Nat) :
    countPT cfg (forkChildPT cfg pt) f = countPT cfg pt f := by
  unfold countPT
  refine congrArg _ (List.map_congr_left ?_)
  intro i hi
  have hilt := List.mem_range.mp hi
  cases hpd : pt.pdes i with
  | none => simp [forkChildPT, hilt, hpd, pdContrib]
  | some pd => simp [forkChildPT, hilt, hpd, pdContrib, countPD_forkChild]

theorem countPT_empty (cfg : Cfg) (f : Nat) : countPT cfg emptyPT f = 0 := by
  refine natList_sum_eq_zero _ ?_
  intro x hx
  rw [List.mem_map] at hx
  obtain ⟨i, _, hxi⟩ := hx
  simp [emptyPT, pdContrib] at hxi
  omega

theorem removeFirst_perm (p : Process → Bool) :
    ∀ (l : List Process) (a : Process) (l' : List Process),
      removeFirst p l = some (a, l') → l.Perm (a :: l') := by
  intro l
  induction l with
  | nil =>
    intro a l' h
    cases h
  | cons x xs ih =>
    intro a l' h
    by_cases hp : p x
    · simp [removeFirst, hp] at h
      obtain ⟨ha, hl'⟩ := h
      subst ha
      subst hl'
      exact List.Perm.refl _
    · simp only [removeFirst, hp, Bool.false_eq_true, if_false] at h
      cases hrec : removeFirst p xs with
      | none =>
        rw [hrec] at h
        cases h
      | some pair =>
        obtain ⟨y, ys⟩ := pair
        rw [hrec] at h
        simp only [Option.some.injEq, Prod.mk.injEq] at h
        obtain ⟨hay, hl'⟩ := h
        subst hay
        subst hl'
        exact ((ih y ys hrec).cons x).trans (List.Perm.swap y x ys)

theorem Inv_alloc_fresh (cfg : Cfg) (s : SimState) (vpn rw : Nat)
    (hv : vpnInRange cfg vpn)
    (hfresh : (pteAt cfg s.current.pagetable vpn).valid = false)
    (hinv : ∀ f, s.mapcounts f = totalCount cfg s f) :
    ∀ f, (alloc_page cfg s vpn rw).2.mapcounts f
      = totalCount cfg (alloc_page cfg s vpn rw).2 f := by
  intro f
  cases hscan : scan (fun g => s.mapcounts g == 0) 0 cfg.NR_PAGEFRAMES with
  | none =>
    simp only [alloc_page, hscan]
    exact hinv f
  | some m =>
    obtain ⟨hm, _, _, _⟩ := scan_eq_some _ _ _ _ hscan
    have hm0 : s.mapcounts m = 0 := by simpa using hm
    have hcount := countPT_set_pte cfg s.current.pagetable vpn hv
      ⟨true, rw, (((s.current.pagetable.pdes (dirIdx cfg vpn)).getD zeroPD).ptes
        (entryIdx cfg vpn)).priv, m⟩ f
    rw [contribPTE_invalid hfresh] at hcount
    have hinvf := hinv f
    have hinvm := hinv m
    rw [totalCount] at hinvf hinvm
    simp only [alloc_page, hscan, totalCount]
    by_cases hfm : f = m
    · have hc1 : contribPTE (⟨true, rw, (((s.current.pagetable.pdes (dirIdx cfg vpn)).getD
          zeroPD).ptes (entryIdx cfg vpn)).priv, m⟩ : PTE) f = 1 := by
        simp [contribPTE, hfm]
      rw [hc1] at hcount
      rw [if_pos hfm]
      subst hfm
      omega
    · have hc0 : contribPTE (⟨true, rw, (((s.current.pagetable.pdes (dirIdx cfg vpn)).getD
          zeroPD).ptes (entryIdx cfg vpn)).priv, m⟩ : PTE) f = 0 := by
        simp [contribPTE]
        intro h
        exact absurd h.symm hfm
      rw [hc0] at hcount
      rw [if_neg hfm]
      omega

theorem Inv_free (cfg : Cfg) (s : SimState) (vpn : Nat)
    (hv : vpnInRange cfg vpn)
    (hinv : ∀ f, s.mapcounts f = totalCount cfg s f) :
    ∀ f, (free_page cfg s vpn).mapcounts f = totalCount cfg (free_page cfg s vpn) f := by
  intro f
  cases hpd : s.current.pagetable.pdes (dirIdx cfg vpn) with
  | none =>
    simp only [free_page, hpd]
    exact hinv f
  | some pd =>
    cases hval : (pd.ptes (entryIdx cfg vpn)).valid with
    | false =>
      simp only [free_page, hpd, hval, Bool.false_eq_true, if_false]
      exact hinv f
    | true =>
      have hpte : pteAt cfg s.current.pagetable vpn = pd.ptes (entryIdx cfg vpn) := by
        simp [pteAt, hpd]
      have hgd : (s.current.pagetable.pdes (dirIdx cfg vpn)).getD zeroPD = pd := by
        rw [hpd]
        rfl
      have hcount := countPT_set_pte cfg s.current.pagetable vpn hv
        ⟨false, 0, (pd.ptes (entryIdx cfg vpn)).priv, 0⟩ f
      rw [hpte, hgd] at hcount
      have hz : contribPTE (⟨false, 0, (pd.ptes (entryIdx cfg vpn)).priv, 0⟩ : PTE) f = 0 :=
        contribPTE_invalid rfl f
      rw [hz] at hcount
      have hle := contrib_pteAt_le_countPT cfg s.current.pagetable vpn hv f
      rw [hpte] at hle
      have hinvf := hinv f
      rw [totalCount] at hinvf
      simp only [free_page, hpd, hval, eq_self_iff_true, if_true, totalCount]
      by_cases hff : f = (pd.ptes (entryIdx cfg vpn)).pfn
      · have hc1 : contribPTE (pd.ptes (entryIdx cfg vpn)) f = 1 := by
          unfold contribPTE
          exact if_pos ⟨hval, hff.symm⟩
        rw [hc1] at hcount hle
        rw [if_pos hff]
        omega
      · have hcz : contribPTE (pd.ptes (entryIdx cfg vpn)) f = 0 := by
          unfold contribPTE
          refine if_neg ?_
          intro hcontra
          exact hff hcontra.2.symm
        rw [hcz] at hcount
        rw [if_neg hff]
        omega

theorem updPT_pdes_self (pt : Pagetable) (d : Nat) (a : PTEDirectory) :
    (updPT pt d a).pdes d = some a := by
  simp [updPT]

theorem updPD_ptes_self (pd : PTEDirectory) (e : Nat) (x : PTE) :
    (updPD pd e x).ptes e = x := by
  simp [updPD]

theorem updPT_updPT (pt : Pagetable) (d : Nat) (a b : PTEDirectory) :
    updPT (updPT pt d a) d b = updPT pt d b := by
  unfold updPT
  congr 1
  funext i
  by_cases hi : i = d <;> simp [hi]

theorem updPD_updPD (pd : PTEDirectory) (e : Nat) (x y : PTE) :
    updPD (updPD pd e x) e y = updPD pd e y := by
  unfold updPD
  congr 1
  funext j
  by_cases hj : j = e <;> simp [hj]

theorem Inv_switch (cfg : Cfg) (s : SimState) (pid : Nat)
    (hinv : ∀ f, s.mapcounts f = totalCount cfg s f) :
    ∀ f, (switch_process cfg s pid).mapcounts f
      = totalCount cfg (switch_process cfg s pid) f := by
  intro f
  cases hrem : removeFirst (fun p => p.pid == pid) s.processes with
  | some pair =>
    obtain ⟨a, rest⟩ := pair
    have hperm := removeFirst_perm _ _ _ _ hrem
    have hsum : (s.processes.map (fun p => countPT cfg p.pagetable f)).sum
        = countPT cfg a.pagetable f
          + (rest.map (fun p => countPT cfg p.pagetable f)).sum := by
      have := (hperm.map (fun p => countPT cfg p.pagetable f)).sum_eq
      simpa using this
    have hinvf := hinv f
    rw [totalCount] at hinvf
    simp only [switch_process, hrem, totalCount, List.map_append, List.sum_append,
      List.map_cons, List.sum_cons, List.map_nil, List.sum_nil]
    omega
  | none =>
    have hinvf := hinv f
    rw [totalCount] at hinvf
    simp only [switch_process, hrem, totalCount, List.map_append, List.sum_append,
      List.map_cons, List.sum_cons, List.map_nil, List.sum_nil]
    rw [bumpPT_apply, countPT_forkChild, countPT_forkParent]
    omega

theorem Inv_mkpd (cfg : Cfg) (s : SimState) (vpn : Nat) (hv : vpnInRange cfg vpn)
    (hpd : s.current.pagetable.pdes (dirIdx cfg vpn) = none)
    (hinv : ∀ f, s.mapcounts f = totalCount cfg s f) :
    ∀ f, ({ s with current := { s.current with
        pagetable := updPT s.current.pagetable (dirIdx cfg vpn) zeroPD } } : SimState).mapcounts f
      = totalCount cfg { s with current := { s.current with
        pagetable := updPT s.current.pagetable (dirIdx cfg vpn) zeroPD } } f := by
  intro f
  have h := countPT_set_zeroPD cfg s.current.pagetable (dirIdx cfg vpn) (dirIdx_lt cfg vpn hv) hpd f
  have hinvf := hinv f
  rw [totalCount] at hinvf ⊢
  show s.mapcounts f
    = countPT cfg (updPT s.current.pagetable (dirIdx cfg vpn) zeroPD) f
      + (s.processes.map (fun p => countPT cfg p.pagetable f)).sum
  omega

theorem Inv_fault (cfg : Cfg) (s : SimState) (vpn rw : Nat)
    (hv : vpnInRange cfg vpn)
    (hok : faultAllocOK cfg s vpn rw)
    (hinv : ∀ f, s.mapcounts f = totalCount cfg s f) :
    ∀ f, (handle_page_fault cfg s vpn rw).2.mapcounts f
      = totalCount cfg (handle_page_fault cfg s vpn rw).2 f := by
  cases hpd : s.current.pagetable.pdes (dirIdx cfg vpn) with
  | none =>
    have hmk := Inv_mkpd cfg s vpn hv hpd hinv
    have hfresh : (pteAt cfg ({ s with current := { s.current with
        pagetable := updPT s.current.pagetable (dirIdx cfg vpn) zeroPD } } : SimState).current.pagetable
        vpn).valid = false := by
      rw [pteAt_eq_getD]
      rw [show (({ s with current := { s.current with
          pagetable := updPT s.current.pagetable (dirIdx cfg vpn) zeroPD } } : SimState).current.pagetable.pdes
          (dirIdx cfg vpn)) = some zeroPD from updPT_pdes_self _ _ _]
      rfl
    have hmain := Inv_alloc_fresh cfg _ vpn rw hv hfresh hmk
    have hstate : (handle_page_fault cfg s vpn rw).2
        = (alloc_page cfg { s with current := { s.current with
            pagetable := updPT s.current.pagetable (dirIdx cfg vpn) zeroPD } } vpn rw).2 := by
      simp only [handle_page_fault, hpd, updPT_pdes_self, Option.getD_some]
      rw [if_pos (by rfl)]
      cases halloc : alloc_page cfg { s with current := { s.current with
          pagetable := updPT s.current.pagetable (dirIdx cfg vpn) zeroPD } } vpn rw with
      | mk o s2 =>
        cases o <;> simp
    rw [hstate]
    exact hmain
  | some pd =>
    have hgd : (s.current.pagetable.pdes (dirIdx cfg vpn)).getD zeroPD = pd := by
      rw [hpd]
      rfl
    have hpte : pteAt cfg s.current.pagetable vpn = pd.ptes (entryIdx cfg vpn) := by
      simp [pteAt, hpd]
    cases hval : (pd.ptes (entryIdx cfg vpn)).valid with
    | false =>
      have hfresh : (pteAt cfg s.current.pagetable vpn).valid = false := by
        rw [hpte]
        exact hval
      have hmain := Inv_alloc_fresh cfg s vpn rw hv hfresh hinv
      have hstate : (handle_page_fault cfg s vpn rw).2 = (alloc_page cfg s vpn rw).2 := by
        simp only [handle_page_fault, hpd, Option.getD_some]
        rw [if_pos hval]
        cases halloc : alloc_page cfg s vpn rw with
        | mk o s2 =>
          cases o <;> simp
      rw [hstate]
      exact hmain
    | true =>
      by_cases hc1 : (pd.ptes (entryIdx cfg vpn)).rw ≠ rw ∧ rw &&& ACCESS_WRITE ≠ 0
      case neg =>
        have hstate : (handle_page_fault cfg s vpn rw).2 = s := by
          simp only [handle_page_fault, hpd, Option.getD_some]
          rw [if_neg (by simp [hval]), if_neg hc1]
        rw [hstate]
        exact hinv
      case pos =>
        by_cases hc2 : (pd.ptes (entryIdx cfg vpn)).rw &&& ACCESS_READ ≠ 0 ∧
            (pd.ptes (entryIdx cfg vpn)).priv &&& ACCESS_WRITE ≠ 0
        case neg =>
          have hstate : (handle_page_fault cfg s vpn rw).2 = s := by
            simp only [handle_page_fault, hpd, Option.getD_some]
            rw [if_neg (by simp [hval]), if_pos hc1, if_neg hc2]
          rw [hstate]
          exact hinv
        case pos =>
          by_cases hsh : s.mapcounts (pd.ptes (entryIdx cfg vpn)).pfn > 1
          case neg =>
            -- in-place permission upgrade, no count changes
            have hstate : (handle_page_fault cfg s vpn rw).2
                = { s with current := { s.current with
                    pagetable := updPT s.current.pagetable (dirIdx cfg vpn)
                      (updPD pd (entryIdx cfg vpn)
                        ⟨(pd.ptes (entryIdx cfg vpn)).valid,
                          (pd.ptes (entryIdx cfg vpn)).rw ||| ACCESS_WRITE,
                          (pd.ptes (entryIdx cfg vpn)).priv,
                          (pd.ptes (entryIdx cfg vpn)).pfn⟩) } } := by
              simp only [handle_page_fault, hpd, Option.getD_some]
              rw [if_neg (by simp [hval]), if_pos hc1, if_pos hc2, if_neg hsh]
            intro f
            have hcount := countPT_set_pte cfg s.current.pagetable vpn hv
              ⟨(pd.ptes (entryIdx cfg vpn)).valid,
                (pd.ptes (entryIdx cfg vpn)).rw ||| ACCESS_WRITE,
                (pd.ptes (entryIdx cfg vpn)).priv,
                (pd.ptes (entryIdx cfg vpn)).pfn⟩ f
            rw [hpte, hgd] at hcount
            have hceq : contribPTE (⟨(pd.ptes (entryIdx cfg vpn)).valid,
                (pd.ptes (entryIdx cfg vpn)).rw ||| ACCESS_WRITE,
                (pd.ptes (entryIdx cfg vpn)).priv,
                (pd.ptes (entryIdx cfg vpn)).pfn⟩ : PTE) f
                = contribPTE (pd.ptes (entryIdx cfg vpn)) f := rfl
            rw [hceq] at hcount
            have hinvf := hinv f
            rw [totalCount] at hinvf
            rw [hstate, totalCount]
            show s.mapcounts f
              = countPT cfg (updPT s.current.pagetable (dirIdx cfg vpn)
                  (updPD pd (entryIdx cfg vpn)
                    ⟨(pd.ptes (entryIdx cfg vpn)).valid,
                      (pd.ptes (entryIdx cfg vpn)).rw ||| ACCESS_WRITE,
                      (pd.ptes (entryIdx cfg vpn)).priv,
                      (pd.ptes (entryIdx cfg vpn)).pfn⟩)) f
                + (s.processes.map (fun p => countPT cfg p.pagetable f)).sum
            omega
          case pos =>
            -- COW copy: hok supplies a free frame for the allocation
            obtain ⟨f0, hf0, hf0z⟩ := hok (Or.inr (by
              rw [hpte]
              exact ⟨hc1.1, hc1.2, hc2.1, hc2.2, hsh⟩))
            cases hscan : scan (fun g => s.mapcounts g == 0) 0 cfg.NR_PAGEFRAMES with
            | none =>
              have := (scan_eq_none_iff _ _ _).mp hscan f0 (Nat.zero_le f0) (by omega)
              rw [show (s.mapcounts f0 == 0) = true by simp [hf0z]] at this
              cases this
            | some m =>
              obtain ⟨hm, _, hmlt, _⟩ := scan_eq_some _ _ _ _ hscan
              have hm0 : s.mapcounts m = 0 := by simpa using hm
              have hmo : m ≠ (pd.ptes (entryIdx cfg vpn)).pfn := by
                intro heq
                rw [heq] at hm0
                omega
              have hstate : (handle_page_fault cfg s vpn rw).2
                  = { s with
                      mapcounts := fun g =>
                        if g = (pd.ptes (entryIdx cfg vpn)).pfn
                        then (if g = m then 1 else s.mapcounts g) - 1
                        else (if g = m then 1 else s.mapcounts g),
                      current := { s.current with
                        pagetable := updPT s.current.pagetable (dirIdx cfg vpn)
                          (updPD (updPD pd (entryIdx cfg vpn)
                              ⟨true, 3, (pd.ptes (entryIdx cfg vpn)).priv, m⟩)
                            (entryIdx cfg vpn)
                            ⟨true, 3 ||| ACCESS_WRITE, (pd.ptes (entryIdx cfg vpn)).priv, m⟩) } } := by
                simp only [handle_page_fault, hpd, Option.getD_some]
                rw [if_neg (by simp [hval]), if_pos hc1, if_pos hc2, if_pos hsh]
                simp only [alloc_page, hscan, hgd, updPT_pdes_self, Option.getD_some,
                  updPD_ptes_self, updPT_updPT]
              intro f
              have hcount := countPT_set_pte cfg s.current.pagetable vpn hv
                ⟨true, 3 ||| ACCESS_WRITE, (pd.ptes (entryIdx cfg vpn)).priv, m⟩ f
              rw [hpte, hgd] at hcount
              rw [show contribPTE (⟨true, 3 ||| ACCESS_WRITE,
                  (pd.ptes (entryIdx cfg vpn)).priv, m⟩ : PTE) f
                  = if m = f then 1 else 0 from by
                unfold contribPTE
                simp] at hcount
              have hinvf := hinv f
              have hinvm := hinv m
              rw [totalCount] at hinvf hinvm
              rw [hstate, totalCount]
              show (if f = (pd.ptes (entryIdx cfg vpn)).pfn
                  then (if f = m then 1 else s.mapcounts f) - 1
                  else (if f = m then 1 else s.mapcounts f))
                = countPT cfg (updPT s.current.pagetable (dirIdx cfg vpn)
                    (updPD (updPD pd (entryIdx cfg vpn)
                        ⟨true, 3, (pd.ptes (entryIdx cfg vpn)).priv, m⟩)
                      (entryIdx cfg vpn)
                      ⟨true, 3 ||| ACCESS_WRITE, (pd.ptes (entryIdx cfg vpn)).priv, m⟩)) f
                  + (s.processes.map (fun p => countPT cfg p.pagetable f)).sum
              rw [updPD_updPD]
              by_cases hfo : f = (pd.ptes (entryIdx cfg vpn)).pfn
              · have hfm : ¬(f = m) := by omega
                rw [if_pos hfo, if_neg hfm]
                rw [show (if m = f then 1 else 0) = 0 from if_neg (fun h => hfm h.symm)] at hcount
                rw [show contribPTE (pd.ptes (entryIdx cfg vpn)) f = 1 from by
                  unfold contribPTE
                  exact if_pos ⟨hval, hfo.symm⟩] at hcount
                rw [← hfo] at hsh
                omega
              · by_cases hfm : f = m
                · rw [if_neg hfo, if_pos hfm]
                  rw [show (if m = f then 1 else 0) = 1 from if_pos hfm.symm] at hcount
                  rw [show contribPTE (pd.ptes (entryIdx cfg vpn)) f = 0 from by
                    unfold contribPTE
                    exact if_neg (fun h => hfo h.2.symm)] at hcount
                  subst hfm
                  omega
                · rw [if_neg hfo, if_neg hfm]
                  rw [show (if m = f then 1 else 0) = 0 from if_neg (fun h => hfm h.symm)] at hcount
                  rw [show contribPTE (pd.ptes (entryIdx cfg vpn)) f = 0 from by
                    unfold contribPTE
                    exact if_neg (fun h => hfo h.2.symm)] at hcount
                  omega

theorem Inv_step (cfg : Cfg) {s s' : SimState} (hstep : StepFresh cfg s s')
    (hinv : ∀ f, s.mapcounts f = totalCount cfg s f) :
    ∀ f, s'.mapcounts f = totalCount cfg s' f := by
  cases hstep with
  | alloc vpn rw hv hfresh hok => exact Inv_alloc_fresh cfg s vpn rw hv hfresh hinv
  | free vpn hv => exact Inv_free cfg s vpn hv hinv
  | fault vpn rw hv hok => exact Inv_fault cfg s vpn rw hv hok hinv
  | switch pid => exact Inv_switch cfg s pid hinv

/-- Claim C1 (counterexample): under the step relation exactly as the
claim words it — `alloc_page` allowed on any in-range VPN — the
refcount-conservation invariant fails. Allocating VPN 0 twice in a row
makes the second call overwrite the PTE with the new frame without
releasing frame 0, so frame 0 has mapcount 1 while no valid PTE of any
live process maps it. -/
theorem C1_counterexample :
    ∃ s, Relation.ReflTransGen (StepClaimed cfgW) initState s ∧
      ¬(∀ f, s.mapcounts f = totalCount cfgW s f) := by
  refine ⟨(alloc_page cfgW (alloc_page cfgW initState 0 1).2 0 1).2, ?_, ?_⟩
  · have h1 : StepClaimed cfgW initState (alloc_page cfgW initState 0 1).2 :=
      StepClaimed.alloc initState 0 1 (by unfold vpnInRange; decide) (by decide)
    have h2 : StepClaimed cfgW (alloc_page cfgW initState 0 1).2
        (alloc_page cfgW (alloc_page cfgW initState 0 1).2 0 1).2 :=
      StepClaimed.alloc (alloc_page cfgW initState 0 1).2 0 1
        (by unfold vpnInRange; decide) (by decide)
    exact Relation.ReflTransGen.head h1 (Relation.ReflTransGen.single h2)
  · intro hall
    have hcontra := hall 0
    rw [show (alloc_page cfgW (alloc_page cfgW initState 0 1).2 0 1).2.mapcounts 0 = 1 from by
        decide,
      show totalCount cfgW (alloc_page cfgW (alloc_page cfgW initState 0 1).2 0 1).2 0 = 0 from by
        decide] at hcontra
    exact absurd hcontra (by decide)

/-- Claim C1 (amended): in every state reachable from the initial state
via `alloc_page` (restricted to VPNs whose current PTE is invalid — a
bare `alloc_page` on a valid PTE overwrites the mapping without
releasing the old frame), `free_page`, `handle_page_fault`, and
`switch_process`, with in-range VPNs and no allocation failure, every
frame's `mapcounts` entry equals the number of valid PTEs across all
live processes (current plus ready queue) whose pfn equals that
frame. -/
theorem C1_refcount_conservation_fresh_alloc (cfg : Cfg) (s : SimState)
    (hreach : Relation.ReflTransGen (StepFresh cfg) initState s) :
    ∀ f, s.mapcounts f = totalCount cfg s f := by
  induction hreach with
  | refl =>
    intro f
    simp [totalCount, initState, countPT_empty]
  | tail hsteps hstep ih => exact Inv_step cfg hstep ih

/-- Witness for C1 at a concrete input: after one legitimate
first-touch allocation from the initial state, frame 0's mapcount (1)
equals the number of valid PTEs mapping frame 0. -/
theorem C1_refcount_conservation_fresh_alloc_witness :
    (alloc_page cfgW initState 0 3).2.mapcounts 0
      = totalCount cfgW (alloc_page cfgW initState 0 3).2 0 :=
  C1_refcount_conservation_fresh_alloc cfgW (alloc_page cfgW initState 0 3).2
    (Relation.ReflTransGen.single
      (StepFresh.alloc initState 0 3 (by unfold vpnInRange; decide) (by decide) (by decide))) 0

end VMSim
